import Mathlib

/-!
Verification of the Gaussian-process conditioning core of the
`3d-Gaussian-Processes` notebook.

The computational core consists of three Python functions:

* `exponential_cov(x, y, params)` — the squared-exponential covariance
  evaluator, `params[0] * np.exp(-0.5 * params[1] * np.subtract.outer(x, y)**2)`;
  both arguments may be scalars (producing a scalar) or sequences
  (producing the full pairwise matrix).  Accessing `params[0]` or
  `params[1]` fails when the hyperparameter list has fewer than two
  entries; no other failure exists in the function.
* `conditional(x_new, x, y, params)` — full Gaussian conditioning:
  `B = K(x_new, x)`, `C = K(x, x)`, `A = K(x_new, x_new)`,
  `mu = inv(C).dot(B.T).T.dot(y)`, `sigma = A - B.dot(inv(C).dot(B.T))`.
* `predict(x, data, kernel, params, sigma, t)` — the incremental variant:
  `k = [kernel(x, d, params) for d in data]`, `Sinv = inv(sigma)`,
  `y_pred = dot(k, Sinv).dot(t)`, `sigma_new = kernel(x,x,params) - dot(k, Sinv).dot(k)`.

The embedding is exact-arithmetic: points, outputs and hyperparameters are
real numbers, sequences of points are `Fin n → ℝ`, covariance matrices are
Mathlib matrices, and `np.linalg.inv` is Mathlib's nonsingular inverse
(which agrees with it on every invertible matrix).  The potential
`IndexError` on a short hyperparameter list is modelled by an `Option`
result on the covariance evaluator, and propagates through `conditional`.
-/

open Matrix

namespace GP

/-- Scalar form of `exponential_cov`: the value
`params[0] * exp(-0.5 * params[1] * (x - y)**2)` computed by the Python
function when both point arguments are scalars (out-of-range accesses
`params[0]`/`params[1]` are the concern of the `Option`-valued wrapper,
which guards the list length before this formula is reached). -/
noncomputable def exponential_cov_scalar (x y : ℝ) (params : List ℝ) : ℝ :=
  params.getD 0 0 * Real.exp (-0.5 * params.getD 1 0 * (x - y) ^ 2)

/-- The pairwise covariance matrix built by `exponential_cov` on two point
sequences, entry `(i, j)` being the kernel at `(x i, y j)`. -/
noncomputable def Km {m n : ℕ} (x : Fin m → ℝ) (y : Fin n → ℝ)
    (params : List ℝ) : Matrix (Fin m) (Fin n) ℝ :=
  Matrix.of fun i j => exponential_cov_scalar (x i) (y j) params

/-- The function `exponential_cov` on point sequences: returns the
pairwise covariance matrix, or fails (Python `IndexError`) when the
hyperparameter list has fewer than two entries. -/
noncomputable def exponential_cov {m n : ℕ} (x : Fin m → ℝ) (y : Fin n → ℝ)
    (params : List ℝ) : Option (Matrix (Fin m) (Fin n) ℝ) :=
  if 2 ≤ params.length then some (Km x y params) else none

/-- The function `conditional(x_new, x, y, params)`: builds the three
covariance blocks and returns
`(inv(C).dot(B.T).T.dot(y), A - B.dot(inv(C).dot(B.T)))`.
The `.squeeze()` of the Python code is a pure reshaping (dropping length-1
axes) and does not change any entry; here shapes are carried by the types. -/
noncomputable def conditional {m k : ℕ} (x_new : Fin m → ℝ) (x : Fin k → ℝ)
    (y : Fin k → ℝ) (params : List ℝ) :
    Option ((Fin m → ℝ) × Matrix (Fin m) (Fin m) ℝ) := do
  let B ← exponential_cov x_new x params
  let C ← exponential_cov x x params
  let A ← exponential_cov x_new x_new params
  pure ((C⁻¹ * B.transpose).transpose *ᵥ y, A - B * (C⁻¹ * B.transpose))

/-- The function `predict(x, data, kernel, params, sigma, t)`: the
incremental predictor.  Here `np.dot(k, Sinv)` with a 1-D `k` is the
row-vector product `k ᵥ* Sinv`, and the trailing `.dot` is the ordinary
dot product. -/
noncomputable def predict {n : ℕ} (x : ℝ) (data : Fin n → ℝ)
    (kernel : ℝ → ℝ → List ℝ → ℝ) (params : List ℝ)
    (sigma : Matrix (Fin n) (Fin n) ℝ) (t : Fin n → ℝ) : ℝ × ℝ :=
  let k : Fin n → ℝ := fun i => kernel x (data i) params
  let Sinv := sigma⁻¹
  (k ᵥ* Sinv ⬝ᵥ t, kernel x x params - k ᵥ* Sinv ⬝ᵥ k)

/-- On a well-formed hyperparameter list the covariance evaluator succeeds
with the pairwise kernel matrix. -/
lemma exponential_cov_some {m n : ℕ} (x : Fin m → ℝ) (y : Fin n → ℝ)
    (params : List ℝ) (h : 2 ≤ params.length) :
    exponential_cov x y params = some (Km x y params) := by
  simp [exponential_cov, h]

/-- The observed-observed covariance block is symmetric. -/
lemma Km_transpose {k : ℕ} (x : Fin k → ℝ) (params : List ℝ) :
    (Km x x params).transpose = Km x x params := by
  ext i j
  simp only [Matrix.transpose_apply, Km, Matrix.of_apply, exponential_cov_scalar]
  ring_nf

/-- The inverse of the observed-observed covariance block is symmetric. -/
lemma Km_inv_transpose {k : ℕ} (x : Fin k → ℝ) (params : List ℝ) :
    ((Km x x params)⁻¹).transpose = (Km x x params)⁻¹ := by
  rw [Matrix.transpose_nonsing_inv, Km_transpose]

/-- `conditional` in the standard textbook form: since `C` is symmetric so
is `C⁻¹`, and the mean `inv(C).dot(B.T).T.dot(y)` computed by the code
collapses to `B · C⁻¹ · y`. -/
lemma conditional_eq {m k : ℕ} (x_new : Fin m → ℝ) (x : Fin k → ℝ)
    (y : Fin k → ℝ) (params : List ℝ) (h : 2 ≤ params.length) :
    conditional x_new x y params =
      some (Km x_new x params *ᵥ ((Km x x params)⁻¹ *ᵥ y),
            Km x_new x_new params -
              Km x_new x params * (Km x x params)⁻¹ *
                (Km x_new x params).transpose) := by
  rw [conditional, exponential_cov_some x_new x params h,
    exponential_cov_some x x params h, exponential_cov_some x_new x_new params h]
  simp only [Bind.bind, Option.bind, Option.pure_def, Option.some.injEq,
    Prod.mk.injEq]
  constructor
  · rw [Matrix.transpose_mul, Matrix.transpose_transpose, Km_inv_transpose,
      Matrix.mulVec_mulVec]
  · rw [Matrix.mul_assoc]

/-- Successful evaluation forces a well-formed hyperparameter list and
identifies the result with the pairwise kernel matrix. -/
lemma exponential_cov_eq_some {m n : ℕ} {x : Fin m → ℝ} {y : Fin n → ℝ}
    {params : List ℝ} {K : Matrix (Fin m) (Fin n) ℝ}
    (h : exponential_cov x y params = some K) :
    2 ≤ params.length ∧ K = Km x y params := by
  by_cases hp : 2 ≤ params.length
  · rw [exponential_cov_some _ _ _ hp, Option.some.injEq] at h
    exact ⟨hp, h.symm⟩
  · simp [exponential_cov, hp] at h

/-- Claim C2: for point sequences `A` (length m) and `B` (length n) and a
hyperparameter vector of positive reals, `exponential_cov` returns the m×n
matrix whose `(i, j)` entry is `θ₀ · exp(−θ₁/2 · (A i − B j)²)`; this covers
`A = B` and the degenerate 1×1 case since m, n are arbitrary. -/
theorem exponential_cov_entry_formula {m n : ℕ} (A : Fin m → ℝ)
    (B : Fin n → ℝ) (θ0 θ1 : ℝ) (rest : List ℝ) (h0 : 0 < θ0)
    (h1 : 0 < θ1) :
    ∃ K, exponential_cov A B (θ0 :: θ1 :: rest) = some K ∧
      ∀ i j, K i j = θ0 * Real.exp (-(θ1 / 2) * (A i - B j) ^ 2) := by
  refine ⟨Km A B (θ0 :: θ1 :: rest),
    exponential_cov_some _ _ _ (by simp), fun i j => ?_⟩
  simp only [Km, Matrix.of_apply, exponential_cov_scalar, List.getD_cons_zero,
    List.getD_cons_succ]
  have harg : -0.5 * θ1 * (A i - B j) ^ 2 = -(θ1 / 2) * (A i - B j) ^ 2 := by
    ring_nf
  rw [harg]

/-- Witness for C2 at `A = [0], B = [3], θ = [1, 10]`. -/
theorem exponential_cov_entry_formula_witness :
    (0 : ℝ) < 1 ∧ (0 : ℝ) < 10 ∧
    ∃ K, exponential_cov ![(0 : ℝ)] ![(3 : ℝ)] [1, 10] = some K ∧
      ∀ i j, K i j = 1 * Real.exp (-((10 : ℝ) / 2) * (![(0 : ℝ)] i - ![(3 : ℝ)] j) ^ 2) :=
  ⟨by norm_num, by norm_num,
    exponential_cov_entry_formula ![(0 : ℝ)] ![(3 : ℝ)] 1 10 []
      (by norm_num) (by norm_num)⟩

/-- Claim C7: the covariance matrix of a point sequence against itself is
symmetric. -/
theorem exponential_cov_symmetric {n : ℕ} (P : Fin n → ℝ) (θ : List ℝ)
    (K : Matrix (Fin n) (Fin n) ℝ) (h : exponential_cov P P θ = some K) :
    ∀ i j, K i j = K j i := by
  obtain ⟨-, rfl⟩ := exponential_cov_eq_some h
  intro i j
  have ht := congrFun (congrFun (Km_transpose P θ) j) i
  simpa [Matrix.transpose_apply] using ht

/-- Witness for C7 at `P = [0, 1], θ = [1, 10]`. -/
theorem exponential_cov_symmetric_witness :
    Km ![(0 : ℝ), 1] ![(0 : ℝ), 1] [1, 10] 0 1 =
      Km ![(0 : ℝ), 1] ![(0 : ℝ), 1] [1, 10] 1 0 :=
  exponential_cov_symmetric ![(0 : ℝ), 1] [1, 10] _
    (exponential_cov_some _ _ _ (by norm_num)) 0 1

/-- Claim C8: every diagonal entry of `exponential_cov(P, P, θ)` equals the
amplitude `θ₀`, and the scalar kernel at coincident points equals `θ₀`
exactly, independent of the point location. -/
theorem diagonal_eq_amplitude (θ0 θ1 : ℝ) (rest : List ℝ) :
    (∀ u : ℝ, exponential_cov_scalar u u (θ0 :: θ1 :: rest) = θ0) ∧
    ∀ {n : ℕ} (P : Fin n → ℝ) (K : Matrix (Fin n) (Fin n) ℝ),
      exponential_cov P P (θ0 :: θ1 :: rest) = some K → ∀ i, K i i = θ0 := by
  have hscal : ∀ u : ℝ, exponential_cov_scalar u u (θ0 :: θ1 :: rest) = θ0 := by
    intro u
    simp [exponential_cov_scalar]
  refine ⟨hscal, fun P K h i => ?_⟩
  obtain ⟨-, rfl⟩ := exponential_cov_eq_some h
  simpa [Km] using hscal (P i)

/-- Witness for C8 at `P = [5], θ = [2, 10]`, checking both the matrix
diagonal and the scalar kernel. -/
theorem diagonal_eq_amplitude_witness :
    exponential_cov_scalar 7 7 [(2 : ℝ), 10] = 2 ∧
      Km ![(5 : ℝ)] ![(5 : ℝ)] [2, 10] 0 0 = 2 :=
  ⟨(diagonal_eq_amplitude 2 10 []).1 7,
    (diagonal_eq_amplitude 2 10 []).2 ![(5 : ℝ)] _
      (exponential_cov_some _ _ _ (by norm_num)) 0⟩

/-- Counterexample to claim C9 as stated: the Covariance Evaluator is
claimed to fail exactly on malformed hyperparameter vectors — wrong arity
(length other than the fixed length 2) or a non-positive value where
positivity is required.  The code performs no such validation: the vector
`[1, -5]` has a non-positive lengthscale and the vector `[1, 2, 3]` has
wrong arity, yet both evaluations succeed. -/
theorem exponential_cov_no_validation :
    (-5 : ℝ) ≤ 0 ∧ ([(1 : ℝ), -5]).length = 2 ∧
    (exponential_cov ![(0 : ℝ)] ![(0 : ℝ)] [1, -5]).isSome = true ∧
    ([(1 : ℝ), 2, 3]).length ≠ 2 ∧
    (exponential_cov ![(0 : ℝ)] ![(0 : ℝ)] [1, 2, 3]).isSome = true := by
  refine ⟨by norm_num, by simp, ?_, by simp, ?_⟩ <;>
    simp [exponential_cov]

/-- Claim C9, amended: the Covariance Evaluator fails if and only if the
hyperparameter vector has fewer than two entries (so that accessing entry 0
or 1 is impossible); vectors with extra entries or non-positive values are
accepted without any error. -/
theorem exponential_cov_none_iff {m n : ℕ} (x : Fin m → ℝ) (y : Fin n → ℝ)
    (θ : List ℝ) : exponential_cov x y θ = none ↔ θ.length < 2 := by
  by_cases hp : 2 ≤ θ.length <;> simp [exponential_cov, hp] <;> omega

/-- Claim C10: the evaluator reads only entries 0 and 1 of the
hyperparameter list — two well-formed lists agreeing there give identical
results — and any list with at least two entries is accepted (no length
cap, no positivity check). -/
theorem exponential_cov_depends_on_first_two {m n : ℕ} (x : Fin m → ℝ)
    (y : Fin n → ℝ) (θ θ' : List ℝ) (h : 2 ≤ θ.length)
    (h' : 2 ≤ θ'.length) (e0 : θ.getD 0 0 = θ'.getD 0 0)
    (e1 : θ.getD 1 0 = θ'.getD 1 0) :
    exponential_cov x y θ = exponential_cov x y θ' ∧
      (exponential_cov x y θ).isSome = true := by
  constructor
  · rw [exponential_cov_some _ _ _ h, exponential_cov_some _ _ _ h',
      Option.some.injEq]
    ext i j
    simp only [Km, Matrix.of_apply, exponential_cov_scalar]
    rw [e0, e1]
  · rw [exponential_cov_some _ _ _ h]
    rfl

/-- Witness for C10: `[1, -5, 7]` (three entries, non-positive lengthscale)
behaves exactly like `[1, -5]` and raises no error. -/
theorem exponential_cov_depends_on_first_two_witness :
    exponential_cov ![(0 : ℝ)] ![(2 : ℝ)] [1, -5, 7] =
        exponential_cov ![(0 : ℝ)] ![(2 : ℝ)] [1, -5] ∧
      (exponential_cov ![(0 : ℝ)] ![(2 : ℝ)] [1, -5, 7]).isSome = true :=
  exponential_cov_depends_on_first_two ![(0 : ℝ)] ![(2 : ℝ)] [1, -5, 7]
    [1, -5] (by norm_num) (by norm_num) (by norm_num) (by norm_num)

/-- Claim C1: for a non-empty observed sequence `x` with outputs `y` of
the same length, query points `x_new`, and hyperparameters making
`C = K(x, x, θ)` invertible, `conditional` returns exactly
`(B · C⁻¹ · y, A − B · C⁻¹ · Bᵀ)` with `B = K(x_new, x, θ)` and
`A = K(x_new, x_new, θ)`.  The code computes the mean as
`inv(C).dot(B.T).T.dot(y)`, which equals `B · C⁻¹ · y` because `C` (hence
`C⁻¹`) is symmetric; collapsing to scalars for a single query point is the
trivial reshaping `.squeeze()`, which changes no entry. -/
theorem conditional_formula {m k : ℕ} (x_new : Fin m → ℝ) (x : Fin k → ℝ)
    (y : Fin k → ℝ) (θ : List ℝ) (B : Matrix (Fin m) (Fin k) ℝ)
    (C : Matrix (Fin k) (Fin k) ℝ) (A : Matrix (Fin m) (Fin m) ℝ)
    (hk : 0 < k) (hB : exponential_cov x_new x θ = some B)
    (hC : exponential_cov x x θ = some C)
    (hA : exponential_cov x_new x_new θ = some A) (hinv : IsUnit C.det) :
    conditional x_new x y θ =
      some (B *ᵥ C⁻¹ *ᵥ y, A - B * C⁻¹ * B.transpose) := by
  obtain ⟨hθ, rfl⟩ := exponential_cov_eq_some hB
  obtain ⟨-, rfl⟩ := exponential_cov_eq_some hC
  obtain ⟨-, rfl⟩ := exponential_cov_eq_some hA
  rw [conditional_eq _ _ _ _ hθ, Matrix.mulVec_mulVec]

/-- Witness for C1 at `x_new = [0], x = [1], y = [2], θ = [1, 10]`. -/
theorem conditional_formula_witness :
    0 < 1 ∧ IsUnit (Km ![(1 : ℝ)] ![(1 : ℝ)] [1, 10]).det ∧
    conditional ![(0 : ℝ)] ![(1 : ℝ)] ![(2 : ℝ)] [1, 10] =
      some (Km ![(0 : ℝ)] ![(1 : ℝ)] [1, 10] *ᵥ
              (Km ![(1 : ℝ)] ![(1 : ℝ)] [1, 10])⁻¹ *ᵥ ![(2 : ℝ)],
            Km ![(0 : ℝ)] ![(0 : ℝ)] [1, 10] -
              Km ![(0 : ℝ)] ![(1 : ℝ)] [1, 10] *
                (Km ![(1 : ℝ)] ![(1 : ℝ)] [1, 10])⁻¹ *
                (Km ![(0 : ℝ)] ![(1 : ℝ)] [1, 10]).transpose) := by
  have hunit : IsUnit (Km ![(1 : ℝ)] ![(1 : ℝ)] [1, 10]).det := by
    have : (Km ![(1 : ℝ)] ![(1 : ℝ)] [1, 10]).det = 1 := by
      rw [Matrix.det_fin_one]
      simp [Km, exponential_cov_scalar]
    rw [this]
    exact isUnit_one
  exact ⟨Nat.one_pos, hunit,
    conditional_formula ![(0 : ℝ)] ![(1 : ℝ)] ![(2 : ℝ)] [1, 10] _ _ _
      Nat.one_pos (exponential_cov_some _ _ _ (by norm_num))
      (exponential_cov_some _ _ _ (by norm_num))
      (exponential_cov_some _ _ _ (by norm_num)) hunit⟩

/-- Claim C4: conditioning on an empty observed set returns the zero mean
and the prior covariance `K(x_new, x_new, θ)` unchanged: with no observed
points every matrix product in the formula is an empty sum. -/
theorem conditional_empty {m : ℕ} (x_new : Fin m → ℝ) (θ : List ℝ)
    (A : Matrix (Fin m) (Fin m) ℝ) (hθ : 2 ≤ θ.length)
    (hA : exponential_cov x_new x_new θ = some A) :
    conditional x_new (![] : Fin 0 → ℝ) (![] : Fin 0 → ℝ) θ =
      some (0, A) := by
  obtain ⟨-, rfl⟩ := exponential_cov_eq_some hA
  rw [conditional_eq _ _ _ _ hθ, Option.some.injEq, Prod.mk.injEq]
  constructor
  · funext i
    simp [Matrix.mulVec, Matrix.dotProduct]
  · have hz : Km x_new (![] : Fin 0 → ℝ) θ * (Km (![] : Fin 0 → ℝ) (![] : Fin 0 → ℝ) θ)⁻¹ *
        (Km x_new (![] : Fin 0 → ℝ) θ).transpose = 0 := by
      ext i j
      simp [Matrix.mul_apply]
    rw [hz, sub_zero]

/-- Witness for C4 at `x_new = [0, 2], θ = [1, 10]`. -/
theorem conditional_empty_witness :
    2 ≤ ([(1 : ℝ), 10]).length ∧
    conditional ![(0 : ℝ), 2] (![] : Fin 0 → ℝ) (![] : Fin 0 → ℝ) [1, 10] =
      some (0, Km ![(0 : ℝ), 2] ![(0 : ℝ), 2] [1, 10]) :=
  ⟨by norm_num,
    conditional_empty ![(0 : ℝ), 2] [1, 10] _ (by norm_num)
      (exponential_cov_some _ _ _ (by norm_num))⟩

/-- Claim C5: with `θ = [1, 10]` the scalar kernel at `(0, 0)` is `1`, and
conditioning on the single observation `x = [1], y = [y₀]` and querying
`x_new = [1]` returns posterior mean `y₀` and posterior variance `0`
exactly, since the query point coincides with the observed point. -/
theorem scenario_coincident_point :
    exponential_cov_scalar 0 0 [1, 10] = 1 ∧
    ∀ y0 : ℝ, conditional ![(1 : ℝ)] ![(1 : ℝ)] ![y0] [1, 10] =
      some (![y0], 0) := by
  have hone : Km ![(1 : ℝ)] ![(1 : ℝ)] [1, 10] = 1 := by
    ext i j
    fin_cases i
    fin_cases j
    simp [Km, exponential_cov_scalar, Matrix.one_apply]
  constructor
  · simp [exponential_cov_scalar]
  · intro y0
    rw [conditional_eq _ _ _ _ (by norm_num), hone, inv_one,
      Matrix.one_mulVec, Matrix.one_mulVec, Matrix.transpose_one, mul_one,
      mul_one, sub_self]

/-- Claim C3: for a single query point, the incremental `predict` (given
the precomputed observed-observed covariance `C`) and the full
`conditional` produce the same posterior mean and variance exactly:
`conditional` returns the 1×1 result filled with exactly the two scalars
`predict` computes. -/
theorem predict_conditional_agree {k : ℕ} (xs : ℝ) (x : Fin k → ℝ)
    (y : Fin k → ℝ) (θ : List ℝ) (C : Matrix (Fin k) (Fin k) ℝ)
    (hC : exponential_cov x x θ = some C) (hinv : IsUnit C.det) :
    conditional ![xs] x y θ =
      some (fun _ => (predict xs x exponential_cov_scalar θ C y).1,
        Matrix.of fun _ _ => (predict xs x exponential_cov_scalar θ C y).2) := by
  obtain ⟨hθ, rfl⟩ := exponential_cov_eq_some hC
  rw [conditional_eq _ _ _ _ hθ, Option.some.injEq, Prod.mk.injEq]
  constructor
  · funext i
    simp only [predict]
    rw [← Matrix.dotProduct_mulVec]
    simp only [Matrix.mulVec, Matrix.dotProduct, Km, Matrix.of_apply,
      Matrix.cons_val_fin_one]
  · ext i j
    simp only [predict, Matrix.of_apply, Matrix.sub_apply]
    congr 1
    · simp [Km, Matrix.cons_val_fin_one]
    · simp only [Matrix.mul_apply, Matrix.vecMul, Matrix.dotProduct,
        Matrix.transpose_apply, Km, Matrix.of_apply, Matrix.cons_val_fin_one,
        Finset.sum_mul]

/-- Witness for C3 at `x* = 0, x = [1], y = [2], θ = [1, 10]`. -/
theorem predict_conditional_agree_witness :
    IsUnit (Km ![(1 : ℝ)] ![(1 : ℝ)] [1, 10]).det ∧
    conditional ![(0 : ℝ)] ![(1 : ℝ)] ![(2 : ℝ)] [1, 10] =
      some (fun _ => (predict 0 ![(1 : ℝ)] exponential_cov_scalar [1, 10]
              (Km ![(1 : ℝ)] ![(1 : ℝ)] [1, 10]) ![(2 : ℝ)]).1,
        Matrix.of fun _ _ => (predict 0 ![(1 : ℝ)] exponential_cov_scalar
              [1, 10] (Km ![(1 : ℝ)] ![(1 : ℝ)] [1, 10]) ![(2 : ℝ)]).2) := by
  have hunit : IsUnit (Km ![(1 : ℝ)] ![(1 : ℝ)] [1, 10]).det := by
    have : (Km ![(1 : ℝ)] ![(1 : ℝ)] [1, 10]).det = 1 := by
      rw [Matrix.det_fin_one]
      simp [Km, exponential_cov_scalar]
    rw [this]
    exact isUnit_one
  exact ⟨hunit,
    predict_conditional_agree 0 ![(1 : ℝ)] ![(2 : ℝ)] [1, 10] _
      (exponential_cov_some _ _ _ (by norm_num)) hunit⟩

/-- Claim C6: with positive amplitude and lengthscale, conditioning on a
single observed point makes the posterior variance returned by `predict`
at any query point strictly smaller than the prior variance `θ₀`. -/
theorem posterior_variance_shrinks (θ0 θ1 xq x0 : ℝ) (rest : List ℝ)
    (t : Fin 1 → ℝ) (C : Matrix (Fin 1) (Fin 1) ℝ) (h0 : 0 < θ0)
    (h1 : 0 < θ1)
    (hC : exponential_cov ![x0] ![x0] (θ0 :: θ1 :: rest) = some C) :
    (predict xq ![x0] exponential_cov_scalar (θ0 :: θ1 :: rest) C t).2 < θ0 := by
  obtain ⟨-, rfl⟩ := exponential_cov_eq_some hC
  have hdet : (Km ![x0] ![x0] (θ0 :: θ1 :: rest)).det = θ0 := by
    rw [Matrix.det_fin_one]
    simp [Km, exponential_cov_scalar]
  have hinv : (Km ![x0] ![x0] (θ0 :: θ1 :: rest))⁻¹ 0 0 = θ0⁻¹ := by
    rw [Matrix.inv_def, hdet, Matrix.adjugate_fin_one, Ring.inverse_eq_inv]
    simp [Matrix.smul_apply, Matrix.one_apply]
  have hEpos : 0 < Real.exp (-0.5 * θ1 * (xq - x0) ^ 2) := Real.exp_pos _
  simp only [predict, Matrix.vecMul, Matrix.dotProduct, Fin.sum_univ_one,
    Matrix.cons_val_zero, hinv, exponential_cov_scalar, List.getD_cons_zero,
    List.getD_cons_succ]
  have hprod : 0 < θ0 * Real.exp (-0.5 * θ1 * (xq - x0) ^ 2) * θ0⁻¹ *
      (θ0 * Real.exp (-0.5 * θ1 * (xq - x0) ^ 2)) :=
    mul_pos (mul_pos (mul_pos h0 hEpos) (inv_pos.mpr h0)) (mul_pos h0 hEpos)
  have hqq : Real.exp (-0.5 * θ1 * (xq - xq) ^ 2) = 1 := by
    simp
  rw [hqq, mul_one]
  linarith [hprod]

/-- Witness for C6 at `θ = [1, 10], x* = 0, x₀ = 1, t = [0]`. -/
theorem posterior_variance_shrinks_witness :
    (0 : ℝ) < 1 ∧ (0 : ℝ) < 10 ∧
    (predict 0 ![(1 : ℝ)] exponential_cov_scalar [1, 10]
        (Km ![(1 : ℝ)] ![(1 : ℝ)] [1, 10]) ![(0 : ℝ)]).2 < 1 :=
  ⟨by norm_num, by norm_num,
    posterior_variance_shrinks 1 10 0 1 [] ![(0 : ℝ)] _ (by norm_num)
      (by norm_num) (exponential_cov_some _ _ _ (by norm_num))⟩

end GP
